import Mathlib

/-!
Verification of the `Confusion` class from `confusion.py` (confusion-matrix
accumulation for semantic segmentation).  The matrix is stored the way numpy
stores it: a flat row-major list of length `class_count * class_count`, and
`incremental_update` writes through flat indices, including numpy's
wrap-around semantics for negative flat indices.
-/

/-- Errors raised by `incremental_update` (each `ValueError` / `Exception` site
of the Python code, plus numpy's own failure modes: the `np.max` of an empty
array and an out-of-bounds flat index). -/
inductive UpdateError where
  | shapeMismatch
  | voidPredictionNotAllowed
  | gtLabelOutOfRange
  | predLabelOutOfRange
  | emptyReduction
  | staleStateConflict
  | flatIndexOutOfBounds
  deriving DecidableEq

/-- State of a `Confusion` accumulator: the class count, the (negative) void
label, the flat row-major confusion matrix (`self.confusion`, a
`class_count x class_count` numpy array of non-negative counts), and the
`finished_computation` flag. -/
structure Confusion where
  class_count : ℕ
  void_label : ℤ
  confusion : List ℕ
  finished_computation : Bool
  deriving DecidableEq

/-- `__init__` followed by `reset()`: a zero matrix and a cleared flag. -/
def Confusion.init (class_count : ℕ) (void_label : ℤ) : Confusion :=
  { class_count := class_count
    void_label := void_label
    confusion := List.replicate (class_count * class_count) 0
    finished_computation := false }

/-- The element filter of `incremental_update`: keep a (gt, pred) pair when
the ground truth is not void, and, when `allow_void_prediction` is set, the
prediction is not void either (`non_void` in the source). -/
def keepMask (s : Confusion) (a : Bool) (p : ℤ × ℤ) : Bool :=
  p.1 != s.void_label && (!a || p.2 != s.void_label)

/-- The flat-index list `pairs = gt_flat * class_count + pred_flat` computed
from the kept elements. -/
def pairsOf (s : Confusion) (gt pred : List ℤ) (a : Bool) : List ℤ :=
  ((gt.zip pred).filter (keepMask s a)).map fun p =>
    p.1 * (s.class_count : ℤ) + p.2

/-- `self.confusion.flat[pairs] += pair_counts` where `pairs, pair_counts =
np.unique(...)`: every distinct flat-index value `q` (negative values wrap,
`flat[q] = flat[q + len]`) receives `old + multiplicity of q`.  When two
distinct values alias the same cell (`q` and `q - len`), numpy's fancy-index
assignment lets the later (larger, since `np.unique` sorts) value win, and the
read side uses the original array. -/
def applyPairs (flat : List ℕ) (pairs : List ℤ) : List ℕ :=
  (List.range flat.length).map fun (j : ℕ) =>
    if (j : ℤ) ∈ pairs then flat.getD j 0 + pairs.count (j : ℤ)
    else if (j : ℤ) - (flat.length : ℤ) ∈ pairs then
      flat.getD j 0 + pairs.count ((j : ℤ) - (flat.length : ℤ))
    else flat.getD j 0

/-- `incremental_update(gt, pred, allow_void_prediction, update_finished)`,
with the source's checks in source order: shape mismatch, void labels in the
predictions, `np.max` of an empty array, ground-truth labels `>= class_count`,
prediction labels `>= class_count`, the stale-state check, and finally numpy's
bounds check on the flat indices.  On success the matrix is updated and
`finished_computation` is cleared. -/
def incremental_update (s : Confusion) (gt pred : List ℤ)
    (allow_void_prediction : Bool := false) (update_finished : Bool := true) :
    Except UpdateError Confusion :=
  if gt.length ≠ pred.length then .error .shapeMismatch
  else if allow_void_prediction = false ∧ s.void_label ∈ pred then
    .error .voidPredictionNotAllowed
  else if gt = [] then .error .emptyReduction
  else if ∃ x ∈ gt, (s.class_count : ℤ) ≤ x then .error .gtLabelOutOfRange
  else if ∃ x ∈ pred, (s.class_count : ℤ) ≤ x then .error .predLabelOutOfRange
  else if s.finished_computation = true ∧ update_finished = false then
    .error .staleStateConflict
  else if ∃ q ∈ pairsOf s gt pred allow_void_prediction,
      q < -(s.confusion.length : ℤ) ∨ (s.confusion.length : ℤ) ≤ q then
    .error .flatIndexOutOfBounds
  else .ok { s with
    confusion := applyPairs s.confusion (pairsOf s gt pred allow_void_prediction)
    finished_computation := false }

/-- The state of the accumulator object after a call to `incremental_update`:
on an exception the Python object is left exactly as it was. -/
def runUpdate (s : Confusion) (gt pred : List ℤ)
    (allow_void_prediction : Bool := false) (update_finished : Bool := true) :
    Confusion :=
  match incremental_update s gt pred allow_void_prediction update_finished with
  | .ok s' => s'
  | .error _ => s

/-- Entry (i, j) of the stored matrix (row-major flat storage). -/
def Confusion.mat (c : Confusion) (i j : ℕ) : ℕ :=
  c.confusion.getD (i * c.class_count + j) 0

/-- `np.sum(self.confusion)`. -/
def Confusion.total (c : Confusion) : ℕ := c.confusion.sum

/-- `np.diag(self.confusion)[i]`. -/
def Confusion.diag (c : Confusion) (i : ℕ) : ℕ := c.mat i i

/-- `np.sum(np.diag(self.confusion))`. -/
def Confusion.diagSum (c : Confusion) : ℕ :=
  ∑ i ∈ Finset.range c.class_count, c.diag i

/-- `self.gt_sum_per_class = np.sum(self.confusion, 1)` (row sums). -/
def Confusion.gt_sum_per_class (c : Confusion) (i : ℕ) : ℕ :=
  ∑ j ∈ Finset.range c.class_count, c.mat i j

/-- `self.sum_per_class = np.sum(self.confusion, 0)` (column sums). -/
def Confusion.sum_per_class (c : Confusion) (j : ℕ) : ℕ :=
  ∑ i ∈ Finset.range c.class_count, c.mat i j

/-- `self.global_score = np.sum(np.diag(...)) / total`: an integer ratio,
except that a zero total yields numpy's `0/0 = NaN`, modelled as `none`. -/
def Confusion.global_score (c : Confusion) : Option ℚ :=
  if c.total = 0 then none else some ((c.diagSum : ℚ) / (c.total : ℚ))

/-- `self.avg_score = np.nanmean(diag / self.gt_sum_per_class)`.  Since the
diagonal entry never exceeds its row sum, entry i is NaN exactly when
`gt_sum_per_class[i] = 0`; `nanmean` averages the remaining entries and is
itself NaN (here `none`) when there are none. -/
def Confusion.avg_score (c : Confusion) : Option ℚ :=
  let valid := (List.range c.class_count).filter fun i =>
    c.gt_sum_per_class i != 0
  if valid = [] then none
  else some
    ((valid.map fun i =>
        (c.diag i : ℚ) / (c.gt_sum_per_class i : ℚ)).sum / (valid.length : ℚ))

/-- `union = self.gt_sum_per_class + self.sum_per_class - diag`. -/
def Confusion.union (c : Confusion) (i : ℕ) : ℕ :=
  c.gt_sum_per_class i + c.sum_per_class i - c.diag i

/-- `self.avg_iou_score = np.nanmean(diag / union)`.  Entry i is NaN exactly
when `union[i] = 0` (a zero denominator forces a zero numerator here). -/
def Confusion.avg_iou_score (c : Confusion) : Option ℚ :=
  let valid := (List.range c.class_count).filter fun i => c.union i != 0
  if valid = [] then none
  else some
    ((valid.map fun i => (c.diag i : ℚ) / (c.union i : ℚ)).sum /
      (valid.length : ℚ))

/-- Cell (i, j) of `self.confusion_normalized_row = (confusion.T /
gt_sum_per_class).T`: NaN (`none`) on rows with zero ground-truth support. -/
def Confusion.confusion_normalized_row (c : Confusion) (i j : ℕ) : Option ℚ :=
  if c.gt_sum_per_class i = 0 then none
  else some ((c.mat i j : ℚ) / (c.gt_sum_per_class i : ℚ))

/-- `finish()`: the derived statistics are the pure functions above of the
unchanged matrix; the call records that they were computed. -/
def Confusion.finish (c : Confusion) : Confusion :=
  { c with finished_computation := true }

/-- The IoU average as the spec words it: the mean of `diag[i] / union[i]`
over the classes, excluding every class whose ground-truth support is zero
(the same exclusion rule as `avg_score`).  Stated for comparison with the
source's `avg_iou_score`. -/
def Confusion.avg_iou_specWorded (c : Confusion) : Option ℚ :=
  let valid := (List.range c.class_count).filter fun i =>
    c.gt_sum_per_class i != 0
  if valid = [] then none
  else some
    ((valid.map fun i => (c.diag i : ℚ) / (c.union i : ℚ)).sum /
      (valid.length : ℚ))

/-- The IoU average with the exclusion rule the code actually implements,
spelled without mentioning `union`: a class is excluded exactly when both its
ground-truth support and its predicted support are zero. -/
def Confusion.avg_iou_supportForm (c : Confusion) : Option ℚ :=
  let valid := (List.range c.class_count).filter fun i =>
    c.gt_sum_per_class i + c.sum_per_class i != 0
  if valid = [] then none
  else some
    ((valid.map fun i => (c.diag i : ℚ) / (c.union i : ℚ)).sum /
      (valid.length : ℚ))

/-- Claim C10: for zero-element inputs of equal shape, `incremental_update`
raises an error (the `np.max` of an empty array fails during validation)
rather than succeeding as a no-op, and the matrix is left unchanged. -/
theorem c10_empty_update_errors (s : Confusion) (a uf : Bool) :
    incremental_update s [] [] a uf = Except.error UpdateError.emptyReduction ∧
    runUpdate s [] [] a uf = s := by
  constructor
  · simp [incremental_update]
  · simp [runUpdate, incremental_update]

/-- Claim C9: a ground-truth label that is negative but different from the
void label (here -2 with void -1) passes every check of `incremental_update`
(the range validation only rejects labels `>= class_count`), and the
resulting negative flat index -3 wraps around and mutates cell (0, 1) of the
matrix instead of being rejected. -/
theorem c9_negative_label_wraparound :
    (-2 : ℤ) < 0 ∧ (-2 : ℤ) ≠ (Confusion.init 2 (-1)).void_label ∧
    incremental_update (Confusion.init 2 (-1)) [-2] [1] =
      Except.ok { class_count := 2, void_label := -1,
                  confusion := [0, 1, 0, 0], finished_computation := false } ∧
    (Confusion.init 2 (-1)).confusion ≠ [0, 1, 0, 0] := by
  refine ⟨by decide, by decide, ?_, by decide⟩
  rfl

/-- Claim C4: from a fresh accumulator with two classes and void label -1,
updating with ground truth [0,0,1,1] and prediction [0,1,1,1] and finishing
yields the matrix [[1,1],[0,2]], global score 3/4, average score 3/4 and
average IoU score 7/12. -/
theorem c4_worked_example :
    runUpdate (Confusion.init 2 (-1)) [0, 0, 1, 1] [0, 1, 1, 1] =
      { class_count := 2, void_label := -1, confusion := [1, 1, 0, 2],
        finished_computation := false } ∧
    Confusion.global_score
      (Confusion.finish (runUpdate (Confusion.init 2 (-1)) [0, 0, 1, 1]
        [0, 1, 1, 1])) = some (3 / 4) ∧
    Confusion.avg_score
      (Confusion.finish (runUpdate (Confusion.init 2 (-1)) [0, 0, 1, 1]
        [0, 1, 1, 1])) = some (3 / 4) ∧
    Confusion.avg_iou_score
      (Confusion.finish (runUpdate (Confusion.init 2 (-1)) [0, 0, 1, 1]
        [0, 1, 1, 1])) = some (7 / 12) := by
  have h : runUpdate (Confusion.init 2 (-1)) [0, 0, 1, 1] [0, 1, 1, 1] =
      { class_count := 2, void_label := -1, confusion := [1, 1, 0, 2],
        finished_computation := false } := by decide
  refine ⟨h, ?_, ?_, ?_⟩
  · rw [h]
    norm_num [Confusion.global_score, Confusion.finish, Confusion.total,
      Confusion.diagSum, Confusion.diag, Confusion.mat, Finset.sum_range_succ]
  · rw [h]
    norm_num [Confusion.avg_score, Confusion.finish,
      Confusion.gt_sum_per_class, Confusion.diag, Confusion.mat,
      Finset.sum_range_succ, List.range_succ]
    simp
  · rw [h]
    norm_num [Confusion.avg_iou_score, Confusion.finish, Confusion.union,
      Confusion.gt_sum_per_class, Confusion.sum_per_class, Confusion.diag,
      Confusion.mat, Finset.sum_range_succ, List.range_succ]
    simp

/-- Claim C1 counterexample: on a finished accumulator, calling
`incremental_update` with the default value of the freshness parameter
(`update_finished = true` in the source, i.e. `require_fresh = false`)
succeeds and clears the flag — it does not raise `StaleStateConflict` as the
claim asserts the default behaviour does. -/
theorem c1_counterexample :
    ({ class_count := 2, void_label := -1, confusion := [0, 0, 0, 0],
       finished_computation := true } : Confusion).finished_computation
        = true ∧
    incremental_update
      { class_count := 2, void_label := -1, confusion := [0, 0, 0, 0],
        finished_computation := true } [0] [0] =
      Except.ok { class_count := 2, void_label := -1,
                  confusion := [1, 0, 0, 0],
                  finished_computation := false } := by
  exact ⟨rfl, rfl⟩

/-- Claim C6 counterexample: on the all-zero accumulated state the code's
`global_score` is numpy's `0/0 = NaN` (modelled `none`), so no rational value
q satisfies `global_score = q` with `q * total = trace`; the claimed identity
fails at the all-zero state. -/
theorem c6_counterexample :
    ¬ ∃ q : ℚ, (Confusion.init 2 (-1)).global_score = some q ∧
      q * ((Confusion.init 2 (-1)).total : ℚ) =
        ((Confusion.init 2 (-1)).diagSum : ℚ) := by
  rintro ⟨q, hq, -⟩
  rw [(by decide : (Confusion.init 2 (-1)).global_score = none)] at hq
  exact Option.noConfusion hq

/-- Claim C2 counterexample: on the accumulated matrix [[0,0],[1,1]] class 0
has zero ground-truth support but nonzero predicted support; the code's
`avg_iou_score` still includes it (its IoU entry is 0/1 = 0, not NaN) and
returns 1/4, whereas the claimed exclusion rule would return 1/2. -/
theorem c2_counterexample :
    Confusion.avg_iou_score
      { class_count := 2, void_label := -1, confusion := [0, 0, 1, 1],
        finished_computation := false } = some (1 / 4) ∧
    Confusion.avg_iou_specWorded
      { class_count := 2, void_label := -1, confusion := [0, 0, 1, 1],
        finished_computation := false } = some (1 / 2) ∧
    Confusion.gt_sum_per_class
      { class_count := 2, void_label := -1, confusion := [0, 0, 1, 1],
        finished_computation := false } 0 = 0 ∧
    Confusion.sum_per_class
      { class_count := 2, void_label := -1, confusion := [0, 0, 1, 1],
        finished_computation := false } 0 ≠ 0 := by
  refine ⟨?_, ?_, by decide, by decide⟩
  · norm_num [Confusion.avg_iou_score, Confusion.union,
      Confusion.gt_sum_per_class, Confusion.sum_per_class, Confusion.diag,
      Confusion.mat, Finset.sum_range_succ, List.range_succ]
    simp
  · norm_num [Confusion.avg_iou_specWorded, Confusion.union,
      Confusion.gt_sum_per_class, Confusion.sum_per_class, Confusion.diag,
      Confusion.mat, Finset.sum_range_succ, List.range_succ]

/-- On any exception the accumulator object is untouched. -/
theorem runUpdate_eq_of_error {s : Confusion} {gt pred : List ℤ} {a uf : Bool}
    {e : UpdateError} (h : incremental_update s gt pred a uf = .error e) :
    runUpdate s gt pred a uf = s := by
  unfold runUpdate
  rw [h]

/-- Claim C3: whenever an input pair violates one of the preconditions of
`incremental_update` (shape mismatch, void prediction without
`allow_void_prediction`, a label at or above `class_count`, or a stale-state
conflict), the call raises an error and the accumulator — matrix and
`finished_computation` flag — is exactly as before the call. -/
theorem c3_validation_before_mutation
    (s : Confusion) (gt pred : List ℤ) (a uf : Bool)
    (h : gt.length ≠ pred.length ∨
      (a = false ∧ s.void_label ∈ pred) ∨
      (∃ x ∈ gt, (s.class_count : ℤ) ≤ x) ∨
      (∃ x ∈ pred, (s.class_count : ℤ) ≤ x) ∨
      (s.finished_computation = true ∧ uf = false)) :
    (∃ e, incremental_update s gt pred a uf = Except.error e) ∧
    runUpdate s gt pred a uf = s := by
  have herr : ∃ e, incremental_update s gt pred a uf = Except.error e := by
    unfold incremental_update
    repeat' split
    all_goals first
      | exact ⟨_, rfl⟩
      | (exfalso; simp_all)
  obtain ⟨e, he⟩ := herr
  exact ⟨⟨e, he⟩, runUpdate_eq_of_error he⟩

/-- Witness for C3: a shape mismatch raises and leaves the state alone. -/
theorem c3_witness :
    (∃ e, incremental_update (Confusion.init 2 (-1)) [0] [0, 1] false true =
      Except.error e) ∧
    runUpdate (Confusion.init 2 (-1)) [0] [0, 1] false true =
      Confusion.init 2 (-1) :=
  c3_validation_before_mutation (Confusion.init 2 (-1)) [0] [0, 1] false true
    (Or.inl (by decide))

/-- The diagonal entry of a row never exceeds the row sum. -/
theorem diag_le_gt_sum (c : Confusion) {i : ℕ} (hi : i < c.class_count) :
    c.diag i ≤ c.gt_sum_per_class i :=
  Finset.single_le_sum (fun j _ => Nat.zero_le (c.mat i j))
    (Finset.mem_range.mpr hi)

/-- The diagonal entry of a column never exceeds the column sum. -/
theorem diag_le_sum_per_class (c : Confusion) {i : ℕ} (hi : i < c.class_count) :
    c.diag i ≤ c.sum_per_class i :=
  Finset.single_le_sum (fun k _ => Nat.zero_le (c.mat k i))
    (Finset.mem_range.mpr hi)

/-- Claim C2 amended: the exclusion rule `avg_iou_score` actually implements
drops a class exactly when its ground-truth support and its predicted support
are both zero; a class with zero ground-truth support but nonzero predicted
support stays in the mean (contributing zero). -/
theorem c2_amended (c : Confusion) :
    c.avg_iou_score = c.avg_iou_supportForm := by
  have hfil : ((List.range c.class_count).filter fun i => c.union i != 0) =
      ((List.range c.class_count).filter fun i =>
        c.gt_sum_per_class i + c.sum_per_class i != 0) := by
    apply List.filter_congr
    intro i hi
    have hi' : i < c.class_count := List.mem_range.mp hi
    have h1 := diag_le_gt_sum c hi'
    have h2 := diag_le_sum_per_class c hi'
    have key : c.union i = 0 ↔
        c.gt_sum_per_class i + c.sum_per_class i = 0 := by
      unfold Confusion.union
      omega
    apply Bool.eq_iff_iff.mpr
    simp only [bne_iff_ne, ne_eq]
    exact not_congr key
  simp only [Confusion.avg_iou_score, Confusion.avg_iou_supportForm, hfil]

/-- Claim C6 amended: whenever the accumulated total is nonzero (so
`global_score` is defined at all), `global_score * total_count` equals the sum
of the diagonal entries; on the all-zero state `global_score` is NaN. -/
theorem c6_amended (c : Confusion) (h : c.total ≠ 0) :
    ∃ q : ℚ, c.global_score = some q ∧
      q * (c.total : ℚ) = (c.diagSum : ℚ) := by
  refine ⟨(c.diagSum : ℚ) / (c.total : ℚ), ?_, ?_⟩
  · unfold Confusion.global_score
    rw [if_neg h]
  · have ht : (c.total : ℚ) ≠ 0 := Nat.cast_ne_zero.mpr h
    field_simp

/-- Witness for the amended C6 on a concrete nonzero state. -/
theorem c6_amended_witness :
    ∃ q : ℚ, Confusion.global_score
        { class_count := 1, void_label := -1, confusion := [1],
          finished_computation := false } = some q ∧
      q * ((Confusion.total
        { class_count := 1, void_label := -1, confusion := [1],
          finished_computation := false }) : ℚ) =
        ((Confusion.diagSum
        { class_count := 1, void_label := -1, confusion := [1],
          finished_computation := false }) : ℚ) :=
  c6_amended _ (by decide)

/-- Claim C7: after the statistics are computed, every row of the
row-normalized matrix whose class has nonzero ground-truth support sums to
exactly 1 (the floating tolerance of the claim is not needed over ℚ). -/
theorem c7_row_sum (c : Confusion) (i : ℕ) (hi : i < c.class_count)
    (h : c.gt_sum_per_class i ≠ 0) :
    ∑ j ∈ Finset.range c.class_count,
      ((c.confusion_normalized_row i j).getD 0) = 1 := by
  have hg : (c.gt_sum_per_class i : ℚ) ≠ 0 := Nat.cast_ne_zero.mpr h
  simp only [Confusion.confusion_normalized_row, if_neg h, Option.getD_some]
  rw [← Finset.sum_div]
  rw [show (∑ j ∈ Finset.range c.class_count, (c.mat i j : ℚ)) =
      (c.gt_sum_per_class i : ℚ) from by
    rw [Confusion.gt_sum_per_class, Nat.cast_sum]]
  exact div_self hg

/-- Witness for C7 on the worked-example matrix, row 0. -/
theorem c7_row_sum_witness :
    ∑ j ∈ Finset.range 2,
      ((Confusion.confusion_normalized_row
        { class_count := 2, void_label := -1, confusion := [1, 1, 0, 2],
          finished_computation := false } 0 j).getD 0) = 1 :=
  c7_row_sum _ 0 (by decide) (by decide)

/-- Reading cell j of a map over `List.range`. -/
theorem getD_range_map (f : ℕ → ℕ) (n j : ℕ) (hj : j < n) :
    (((List.range n).map f).getD j 0) = f j := by
  rw [List.getD_eq_getElem?_getD, List.getElem?_map, List.getElem?_range hj]
  rfl

/-- `applyPairs` preserves the matrix size. -/
theorem applyPairs_length (flat : List ℕ) (pairs : List ℤ) :
    (applyPairs flat pairs).length = flat.length := by
  simp [applyPairs]

/-- With all flat indices in range (no wrap-around), `applyPairs` adds each
index's multiplicity to its cell. -/
theorem applyPairs_eq_addCount (flat : List ℕ) (pairs : List ℤ)
    (hb : ∀ q ∈ pairs, 0 ≤ q ∧ q < (flat.length : ℤ)) :
    applyPairs flat pairs =
      (List.range flat.length).map fun j => flat.getD j 0 + pairs.count (j : ℤ) := by
  unfold applyPairs
  apply List.map_congr_left
  intro j hj
  have hjlt : j < flat.length := List.mem_range.mp hj
  by_cases hmem : (j : ℤ) ∈ pairs
  · rw [if_pos hmem]
  · have hneg : (j : ℤ) - (flat.length : ℤ) ∉ pairs := by
      intro hmem2
      have := (hb _ hmem2).1
      omega
    rw [if_neg hmem, if_neg hneg, List.count_eq_zero.mpr hmem]
    omega

/-- Cell value after `applyPairs` with in-range indices. -/
theorem applyPairs_getD (flat : List ℕ) (pairs : List ℤ)
    (hb : ∀ q ∈ pairs, 0 ≤ q ∧ q < (flat.length : ℤ)) (j : ℕ)
    (hj : j < flat.length) :
    (applyPairs flat pairs).getD j 0 = flat.getD j 0 + pairs.count (j : ℤ) := by
  rw [applyPairs_eq_addCount flat pairs hb, getD_range_map _ _ _ hj]

/-- Applying two in-range index batches in sequence equals applying their
concatenation. -/
theorem applyPairs_append (flat : List ℕ) (p1 p2 : List ℤ)
    (hb1 : ∀ q ∈ p1, 0 ≤ q ∧ q < (flat.length : ℤ))
    (hb2 : ∀ q ∈ p2, 0 ≤ q ∧ q < (flat.length : ℤ)) :
    applyPairs (applyPairs flat p1) p2 = applyPairs flat (p1 ++ p2) := by
  have hlen : (applyPairs flat p1).length = flat.length := applyPairs_length flat p1
  have hb2' : ∀ q ∈ p2, 0 ≤ q ∧ q < ((applyPairs flat p1).length : ℤ) := by
    rw [hlen]; exact hb2
  have hb12 : ∀ q ∈ p1 ++ p2, 0 ≤ q ∧ q < (flat.length : ℤ) := by
    intro q hq
    rcases List.mem_append.mp hq with h | h
    · exact hb1 q h
    · exact hb2 q h
  rw [applyPairs_eq_addCount _ p2 hb2', applyPairs_eq_addCount flat p1 hb1,
    applyPairs_eq_addCount flat (p1 ++ p2) hb12]
  rw [List.length_map, List.length_range]
  apply List.map_congr_left
  intro j hj
  have hjlt : j < flat.length := List.mem_range.mp hj
  rw [getD_range_map _ _ _ hjlt, List.count_append]
  omega

/-- With labels either in range or void, every computed flat index lies in
`[0, class_count^2)`. -/
theorem pairsOf_mem_bounds (s : Confusion) (gt pred : List ℤ) (a : Bool)
    (hvoid : s.void_label < 0)
    (hgt : ∀ x ∈ gt, (0 ≤ x ∧ x < (s.class_count : ℤ)) ∨ x = s.void_label)
    (hpred : ∀ x ∈ pred, (0 ≤ x ∧ x < (s.class_count : ℤ)) ∨
      (a = true ∧ x = s.void_label)) :
    ∀ q ∈ pairsOf s gt pred a,
      0 ≤ q ∧ q < (s.class_count : ℤ) * (s.class_count : ℤ) := by
  intro q hq
  unfold pairsOf at hq
  simp only [List.mem_map, List.mem_filter] at hq
  obtain ⟨⟨g, p⟩, ⟨hmem, hkeep⟩, rfl⟩ := hq
  obtain ⟨hgmem, hpmem⟩ := List.of_mem_zip hmem
  simp only [keepMask, Bool.and_eq_true, bne_iff_ne, ne_eq, Bool.or_eq_true,
    Bool.not_eq_true'] at hkeep
  obtain ⟨hgv, hav⟩ := hkeep
  dsimp only
  have hgr : 0 ≤ g ∧ g < (s.class_count : ℤ) := by
    rcases hgt g hgmem with h | h
    · exact h
    · exact absurd h hgv
  have hpr : 0 ≤ p ∧ p < (s.class_count : ℤ) := by
    rcases hpred p hpmem with h | ⟨ha, hp⟩
    · exact h
    · rcases hav with h' | h'
      · rw [ha] at h'
        exact Bool.noConfusion h'
      · exact absurd hp h'
  constructor
  · have h1 : 0 ≤ g * (s.class_count : ℤ) :=
      mul_nonneg hgr.1 (Int.natCast_nonneg _)
    omega
  · have hexp : (g + 1) * (s.class_count : ℤ) =
        g * (s.class_count : ℤ) + (s.class_count : ℤ) := by ring
    have h2 : (g + 1) * (s.class_count : ℤ) ≤
        (s.class_count : ℤ) * (s.class_count : ℤ) :=
      mul_le_mul_of_nonneg_right (by omega) (Int.natCast_nonneg _)
    omega

/-- The flat-index list of a concatenated batch splits at the batch
boundary. -/
theorem pairsOf_append (s : Confusion) (gt1 pred1 gt2 pred2 : List ℤ)
    (a : Bool) (hlen : gt1.length = pred1.length) :
    pairsOf s (gt1 ++ gt2) (pred1 ++ pred2) a =
      pairsOf s gt1 pred1 a ++ pairsOf s gt2 pred2 a := by
  unfold pairsOf
  rw [List.zip_append hlen, List.filter_append, List.map_append]

/-- Normal form of a validated call: with matching shapes, a nonempty batch,
labels in range or void (void predictions only under `allow_void_prediction`),
and a well-formed matrix, `incremental_update` either reports the stale-state
conflict or applies the counted pairs and clears the flag. -/
theorem incremental_update_eq (s : Confusion) (gt pred : List ℤ) (a uf : Bool)
    (hlen : gt.length = pred.length) (hne : gt ≠ [])
    (hvoid : s.void_label < 0)
    (hgt : ∀ x ∈ gt, (0 ≤ x ∧ x < (s.class_count : ℤ)) ∨ x = s.void_label)
    (hpred : ∀ x ∈ pred, (0 ≤ x ∧ x < (s.class_count : ℤ)) ∨
      (a = true ∧ x = s.void_label))
    (hflat : s.confusion.length = s.class_count * s.class_count) :
    incremental_update s gt pred a uf =
      if s.finished_computation = true ∧ uf = false then
        Except.error UpdateError.staleStateConflict
      else Except.ok
        { s with confusion := applyPairs s.confusion (pairsOf s gt pred a),
                 finished_computation := false } := by
  have h1 : ¬gt.length ≠ pred.length := fun h => h hlen
  have h2 : ¬(a = false ∧ s.void_label ∈ pred) := by
    rintro ⟨ha, hv⟩
    rcases hpred _ hv with ⟨h0, _⟩ | ⟨ha', _⟩
    · omega
    · rw [ha] at ha'
      exact Bool.noConfusion ha'
  have h4 : ¬∃ x ∈ gt, (s.class_count : ℤ) ≤ x := by
    rintro ⟨x, hx, hcx⟩
    rcases hgt x hx with ⟨h0, hlt⟩ | hv
    · omega
    · have h0 : (0 : ℤ) ≤ (s.class_count : ℤ) := Int.natCast_nonneg _
      omega
  have h5 : ¬∃ x ∈ pred, (s.class_count : ℤ) ≤ x := by
    rintro ⟨x, hx, hcx⟩
    rcases hpred x hx with ⟨h0, hlt⟩ | ⟨_, hv⟩
    · omega
    · have h0 : (0 : ℤ) ≤ (s.class_count : ℤ) := Int.natCast_nonneg _
      omega
  have h7 : ¬∃ q ∈ pairsOf s gt pred a,
      q < -(s.confusion.length : ℤ) ∨ (s.confusion.length : ℤ) ≤ q := by
    rintro ⟨q, hq, hout⟩
    obtain ⟨hq0, hqlt⟩ := pairsOf_mem_bounds s gt pred a hvoid hgt hpred q hq
    rw [hflat] at hout
    push_cast at hout
    rcases hout with h | h
    · linarith
    · linarith
  unfold incremental_update
  rw [if_neg h1, if_neg h2, if_neg hne, if_neg h4, if_neg h5, if_neg h7]

/-- Claim C5: updating once with the concatenation of two batches produces
the same state (in particular the same confusion matrix) as updating with the
two batches in sequence, from any starting state whose matrix is well-formed
and for any valid label arrays. -/
theorem c5_concat (s : Confusion) (gt1 pred1 gt2 pred2 : List ℤ) (a : Bool)
    (hflat : s.confusion.length = s.class_count * s.class_count)
    (hvoid : s.void_label < 0)
    (hne1 : gt1 ≠ []) (hne2 : gt2 ≠ [])
    (hlen1 : gt1.length = pred1.length) (hlen2 : gt2.length = pred2.length)
    (hgt1 : ∀ x ∈ gt1, (0 ≤ x ∧ x < (s.class_count : ℤ)) ∨ x = s.void_label)
    (hgt2 : ∀ x ∈ gt2, (0 ≤ x ∧ x < (s.class_count : ℤ)) ∨ x = s.void_label)
    (hpred1 : ∀ x ∈ pred1, (0 ≤ x ∧ x < (s.class_count : ℤ)) ∨
      (a = true ∧ x = s.void_label))
    (hpred2 : ∀ x ∈ pred2, (0 ≤ x ∧ x < (s.class_count : ℤ)) ∨
      (a = true ∧ x = s.void_label)) :
    ∃ s1 s2 s12,
      incremental_update s gt1 pred1 a = Except.ok s1 ∧
      incremental_update s1 gt2 pred2 a = Except.ok s2 ∧
      incremental_update s (gt1 ++ gt2) (pred1 ++ pred2) a = Except.ok s12 ∧
      s12 = s2 := by
  have hb1 : ∀ q ∈ pairsOf s gt1 pred1 a,
      0 ≤ q ∧ q < (s.confusion.length : ℤ) := by
    intro q hq
    obtain ⟨h0, hlt⟩ := pairsOf_mem_bounds s gt1 pred1 a hvoid hgt1 hpred1 q hq
    rw [hflat]
    push_cast
    exact ⟨h0, hlt⟩
  have hb2 : ∀ q ∈ pairsOf s gt2 pred2 a,
      0 ≤ q ∧ q < (s.confusion.length : ℤ) := by
    intro q hq
    obtain ⟨h0, hlt⟩ := pairsOf_mem_bounds s gt2 pred2 a hvoid hgt2 hpred2 q hq
    rw [hflat]
    push_cast
    exact ⟨h0, hlt⟩
  have h1 : incremental_update s gt1 pred1 a = Except.ok
      { s with confusion := applyPairs s.confusion (pairsOf s gt1 pred1 a),
               finished_computation := false } := by
    rw [incremental_update_eq s gt1 pred1 a true hlen1 hne1 hvoid hgt1 hpred1
      hflat]
    rw [if_neg (by simp)]
  have hflat1 : (applyPairs s.confusion (pairsOf s gt1 pred1 a)).length =
      s.class_count * s.class_count := by
    rw [applyPairs_length]
    exact hflat
  have h2 : incremental_update
      { s with confusion := applyPairs s.confusion (pairsOf s gt1 pred1 a),
               finished_computation := false } gt2 pred2 a = Except.ok
      { s with confusion := (applyPairs
                  (applyPairs s.confusion (pairsOf s gt1 pred1 a))
                  (pairsOf s gt2 pred2 a)),
               finished_computation := false } := by
    rw [incremental_update_eq
      { s with confusion := applyPairs s.confusion (pairsOf s gt1 pred1 a),
               finished_computation := false }
      gt2 pred2 a true hlen2 hne2 hvoid hgt2 hpred2 hflat1]
    rw [if_neg (by simp)]
    rfl
  have hlen12 : (gt1 ++ gt2).length = (pred1 ++ pred2).length := by
    simp [hlen1, hlen2]
  have hne12 : gt1 ++ gt2 ≠ [] := fun h => hne1 (List.append_eq_nil.mp h).1
  have hgt12 : ∀ x ∈ gt1 ++ gt2,
      (0 ≤ x ∧ x < (s.class_count : ℤ)) ∨ x = s.void_label := by
    intro x hx
    rcases List.mem_append.mp hx with h | h
    · exact hgt1 x h
    · exact hgt2 x h
  have hpred12 : ∀ x ∈ pred1 ++ pred2,
      (0 ≤ x ∧ x < (s.class_count : ℤ)) ∨ (a = true ∧ x = s.void_label) := by
    intro x hx
    rcases List.mem_append.mp hx with h | h
    · exact hpred1 x h
    · exact hpred2 x h
  have h12 : incremental_update s (gt1 ++ gt2) (pred1 ++ pred2) a = Except.ok
      { s with confusion := (applyPairs s.confusion
                  (pairsOf s gt1 pred1 a ++ pairsOf s gt2 pred2 a)),
               finished_computation := false } := by
    rw [incremental_update_eq s _ _ a true hlen12 hne12 hvoid hgt12 hpred12
      hflat]
    rw [if_neg (by simp), pairsOf_append s gt1 pred1 gt2 pred2 a hlen1]
  refine ⟨_, _, _, h1, h2, h12, ?_⟩
  rw [← applyPairs_append s.confusion (pairsOf s gt1 pred1 a)
    (pairsOf s gt2 pred2 a) hb1 hb2]

/-- The flat encoding `g * cc + p` is injective while `p` stays in
`[0, cc)`. -/
theorem pair_encode_inj {cc g p i j : ℤ} (hp0 : 0 ≤ p) (hplt : p < cc)
    (hj0 : 0 ≤ j) (hjlt : j < cc)
    (h : g * cc + p = i * cc + j) : g = i ∧ p = j := by
  have hcc : 0 < cc := lt_of_le_of_lt hp0 hplt
  have h1 : (g * cc + p) % cc = p := by
    rw [add_comm, Int.add_mul_emod_self]
    exact Int.emod_eq_of_lt hp0 hplt
  have h2 : (i * cc + j) % cc = j := by
    rw [add_comm, Int.add_mul_emod_self]
    exact Int.emod_eq_of_lt hj0 hjlt
  have hpj : p = j := by rw [← h1, ← h2, h]
  refine ⟨?_, hpj⟩
  have hg : g * cc = i * cc := by omega
  exact mul_right_cancel₀ (ne_of_gt hcc) hg

/-- Multiplicity of a value in a mapped list as a `countP` of preimages. -/
theorem count_map_encode (l : List (ℤ × ℤ)) (f : ℤ × ℤ → ℤ) (q : ℤ) :
    (l.map f).count q = l.countP fun x => f x == q := by
  rw [List.count_eq_countP, List.countP_map]
  rfl

/-- The multiplicity of the flat index of cell (i, j) among the computed
pairs is the number of (gt, pred) elements equal to (i, j); the keep mask is
redundant there because (i, j) is never void. -/
theorem count_pairsOf (s : Confusion) (gt pred : List ℤ) (a : Bool)
    (hvoid : s.void_label < 0)
    (hgt : ∀ x ∈ gt, (0 ≤ x ∧ x < (s.class_count : ℤ)) ∨ x = s.void_label)
    (hpred : ∀ x ∈ pred, (0 ≤ x ∧ x < (s.class_count : ℤ)) ∨
      (a = true ∧ x = s.void_label))
    (i j : ℕ) (hi : i < s.class_count) (hj : j < s.class_count) :
    (pairsOf s gt pred a).count ((i * s.class_count + j : ℕ) : ℤ) =
      ((gt.zip pred).filter fun p =>
        p.1 == (i : ℤ) && p.2 == (j : ℤ)).length := by
  unfold pairsOf
  rw [count_map_encode, List.countP_filter, ← List.countP_eq_length_filter]
  apply List.countP_congr
  rintro ⟨g, pp⟩ hp
  obtain ⟨hgm, hpm⟩ := List.of_mem_zip hp
  simp only [Bool.and_eq_true, beq_iff_eq, keepMask, bne_iff_ne, ne_eq,
    Bool.or_eq_true, Bool.not_eq_true']
  have hi0 : (0 : ℤ) ≤ (i : ℤ) := Int.natCast_nonneg _
  have hj0 : (0 : ℤ) ≤ (j : ℤ) := Int.natCast_nonneg _
  have hilt : (i : ℤ) < (s.class_count : ℤ) := by exact_mod_cast hi
  have hjlt : (j : ℤ) < (s.class_count : ℤ) := by exact_mod_cast hj
  have hidx : ((i * s.class_count + j : ℕ) : ℤ) =
      (i : ℤ) * (s.class_count : ℤ) + (j : ℤ) := by push_cast; ring
  constructor
  · rintro ⟨heq, hgv, hav⟩
    have hgr : 0 ≤ g ∧ g < (s.class_count : ℤ) := by
      rcases hgt g hgm with h | h
      · exact h
      · exact absurd h hgv
    have hpr : 0 ≤ pp ∧ pp < (s.class_count : ℤ) := by
      rcases hpred pp hpm with h | ⟨ha, hpv⟩
      · exact h
      · rcases hav with h' | h'
        · rw [ha] at h'
          exact Bool.noConfusion h'
        · exact absurd hpv h'
    rw [hidx] at heq
    obtain ⟨hg, hp2⟩ := pair_encode_inj hpr.1 hpr.2 hj0 hjlt heq
    exact ⟨hg, hp2⟩
  · rintro ⟨hg, hp2⟩
    subst hg
    subst hp2
    refine ⟨by rw [hidx], by omega, Or.inr (by omega)⟩

/-- Claim C8: in every successful update, cell (i, j) grows by exactly the
number of elements whose (gt, pred) pair equals (i, j).  Since the void label
is negative, an element with void ground truth matches no cell at all, and
under `allow_void_prediction` an element with void prediction matches no cell
either: void elements contribute to no count. -/
theorem c8_void_exclusion (s : Confusion) (gt pred : List ℤ) (a uf : Bool)
    (s' : Confusion)
    (hvoid : s.void_label < 0)
    (hgt : ∀ x ∈ gt, (0 ≤ x ∧ x < (s.class_count : ℤ)) ∨ x = s.void_label)
    (hpred : ∀ x ∈ pred, (0 ≤ x ∧ x < (s.class_count : ℤ)) ∨
      (a = true ∧ x = s.void_label))
    (hflat : s.confusion.length = s.class_count * s.class_count)
    (h : incremental_update s gt pred a uf = Except.ok s')
    (i j : ℕ) (hi : i < s.class_count) (hj : j < s.class_count) :
    s'.mat i j = s.mat i j +
      ((gt.zip pred).filter fun p =>
        p.1 == (i : ℤ) && p.2 == (j : ℤ)).length := by
  unfold incremental_update at h
  repeat' split at h
  all_goals cases h
  have hb : ∀ q ∈ pairsOf s gt pred a,
      0 ≤ q ∧ q < (s.confusion.length : ℤ) := by
    intro q hq
    obtain ⟨h0, hlt⟩ := pairsOf_mem_bounds s gt pred a hvoid hgt hpred q hq
    rw [hflat]
    push_cast
    exact ⟨h0, hlt⟩
  have hidx : i * s.class_count + j < s.confusion.length := by
    rw [hflat]
    have h1 : i * s.class_count + j < (i + 1) * s.class_count := by
      rw [Nat.succ_mul]
      omega
    have h2 : (i + 1) * s.class_count ≤ s.class_count * s.class_count :=
      Nat.mul_le_mul_right _ hi
    omega
  show (applyPairs s.confusion (pairsOf s gt pred a)).getD
      (i * s.class_count + j) 0 = _
  rw [applyPairs_getD _ _ hb _ hidx,
    count_pairsOf s gt pred a hvoid hgt hpred i j hi hj]
  rfl

/-- Claim C1 amended: on a finished accumulator a valid update with
`require_fresh = true` — that is `update_finished = false`, which is NOT the
parameter's default in the code — raises `StaleStateConflict` and leaves the
state unchanged, while `require_fresh = false` (`update_finished = true`, the
actual default) succeeds and clears the finished flag. -/
theorem c1_amended (s : Confusion) (gt pred : List ℤ)
    (hfin : s.finished_computation = true)
    (hflat : s.confusion.length = s.class_count * s.class_count)
    (hvoid : s.void_label < 0)
    (hlen : gt.length = pred.length) (hne : gt ≠ [])
    (hgt : ∀ x ∈ gt, 0 ≤ x ∧ x < (s.class_count : ℤ))
    (hpred : ∀ x ∈ pred, 0 ≤ x ∧ x < (s.class_count : ℤ)) :
    (incremental_update s gt pred false false =
        Except.error UpdateError.staleStateConflict ∧
      runUpdate s gt pred false false = s) ∧
    ∃ s2, incremental_update s gt pred false true = Except.ok s2 ∧
      s2.finished_computation = false ∧ s2.class_count = s.class_count ∧
      s2.void_label = s.void_label := by
  have hgt' : ∀ x ∈ gt,
      (0 ≤ x ∧ x < (s.class_count : ℤ)) ∨ x = s.void_label :=
    fun x hx => Or.inl (hgt x hx)
  have hpred' : ∀ x ∈ pred, (0 ≤ x ∧ x < (s.class_count : ℤ)) ∨
      (false = true ∧ x = s.void_label) := fun x hx => Or.inl (hpred x hx)
  have herr : incremental_update s gt pred false false =
      Except.error UpdateError.staleStateConflict := by
    rw [incremental_update_eq s gt pred false false hlen hne hvoid hgt' hpred'
      hflat]
    rw [if_pos ⟨hfin, rfl⟩]
  have hok : incremental_update s gt pred false true = Except.ok
      { s with confusion := applyPairs s.confusion (pairsOf s gt pred false),
               finished_computation := false } := by
    rw [incremental_update_eq s gt pred false true hlen hne hvoid hgt' hpred'
      hflat]
    rw [if_neg (by simp)]
  exact ⟨⟨herr, runUpdate_eq_of_error herr⟩, ⟨_, hok, rfl, rfl, rfl⟩⟩

/-- Claim C1 amended: on a finished accumulator a valid update with
`require_fresh = true` — that is `update_finished = false`, which is NOT the
parameter's default in the code — raises `StaleStateConflict` and leaves the
state unchanged, while `require_fresh = false` (`update_finished = true`, the
actual default) succeeds and clears the finished flag. -/
theorem c1_amended_witness :
    (incremental_update
        { class_count := 2, void_label := -1, confusion := [0, 0, 0, 0],
          finished_computation := true } [0] [1] false false =
        Except.error UpdateError.staleStateConflict ∧
      runUpdate
        { class_count := 2, void_label := -1, confusion := [0, 0, 0, 0],
          finished_computation := true } [0] [1] false false =
        { class_count := 2, void_label := -1, confusion := [0, 0, 0, 0],
          finished_computation := true }) ∧
    ∃ s2, incremental_update
        { class_count := 2, void_label := -1, confusion := [0, 0, 0, 0],
          finished_computation := true } [0] [1] false true = Except.ok s2 ∧
      s2.finished_computation = false ∧
      s2.class_count =
        ({ class_count := 2, void_label := -1, confusion := [0, 0, 0, 0],
           finished_computation := true } : Confusion).class_count ∧
      s2.void_label =
        ({ class_count := 2, void_label := -1, confusion := [0, 0, 0, 0],
           finished_computation := true } : Confusion).void_label :=
  c1_amended
    { class_count := 2, void_label := -1, confusion := [0, 0, 0, 0],
      finished_computation := true } [0] [1] (by decide) (by decide)
    (by decide) (by decide) (by decide) (by decide) (by decide)

/-- Claim C5: updating once with the concatenation of two batches produces
the same state (in particular the same confusion matrix) as updating with the
two batches in sequence, from any starting state whose matrix is well-formed
and for any valid label arrays. -/
theorem c5_concat_witness :
    ∃ s1 s2 s12,
      incremental_update (Confusion.init 2 (-1)) [0] [0] false =
        Except.ok s1 ∧
      incremental_update s1 [1] [1] false = Except.ok s2 ∧
      incremental_update (Confusion.init 2 (-1)) ([0] ++ [1]) ([0] ++ [1])
        false = Except.ok s12 ∧
      s12 = s2 :=
  c5_concat (Confusion.init 2 (-1)) [0] [0] [1] [1] false (by decide)
    (by decide) (by decide) (by decide) (by decide) (by decide) (by decide)
    (by decide) (by decide) (by decide)

/-- Claim C8: in every successful update, cell (i, j) grows by exactly the
number of elements whose (gt, pred) pair equals (i, j).  Since the void label
is negative, an element with void ground truth matches no cell at all, and
under `allow_void_prediction` an element with void prediction matches no cell
either: void elements contribute to no count. -/
theorem c8_void_exclusion_witness :
    ({ class_count := 2, void_label := -1, confusion := [1, 0, 0, 0],
       finished_computation := false } : Confusion).mat 0 0 =
      (Confusion.init 2 (-1)).mat 0 0 +
      ((([(0 : ℤ), -1]).zip [(0 : ℤ), 1]).filter fun p =>
        p.1 == (0 : ℤ) && p.2 == (0 : ℤ)).length :=
  c8_void_exclusion (Confusion.init 2 (-1)) [0, -1] [0, 1] false true
    { class_count := 2, void_label := -1, confusion := [1, 0, 0, 0],
      finished_computation := false } (by decide) (by decide) (by decide)
    (by decide) (by rfl) 0 0 (by decide) (by decide)
